import Mathlib

/-!
Shallow embedding of `add_image_formatter.py`: a script that inserts an
`image:` field into the YAML-style front matter of markdown posts, right
after the `title:` line, using the first image reference found in the body
(markdown `![alt](url)` first, then `<img ... src="url">`), or a default
asset path.  File contents are modelled as `List Char`; the in-place file
rewrite is modelled as a function from old content to
`(changed, new content)`.
-/

namespace AddImage

/-- Convert a string literal to the `List Char` representation used here. -/
def chars (s : String) : List Char := s.toList

/-- Characters stripped by Python's `str.strip()` (ASCII whitespace). -/
def pyIsSpace (c : Char) : Bool :=
  c = ' ' || c = '\t' || c = '\n' || c = '\r' || c = '\x0b' || c = '\x0c'

/-- Python `str.strip()`: remove leading and trailing whitespace. -/
def pyStrip (l : List Char) : List Char :=
  ((l.dropWhile pyIsSpace).reverse.dropWhile pyIsSpace).reverse

/-- Python `str.startswith(p)` on char lists: `startsWithL p s` holds when
`p` is an initial segment of `s`. -/
def startsWithL : List Char → List Char → Bool
  | [], _ => true
  | _ :: _, [] => false
  | p :: ps, c :: cs => p = c && startsWithL ps cs

/-- The front-matter marker token `---`. -/
def marker : List Char := ['-', '-', '-']

/-- Whether a char list ends with a newline character. -/
def endsNl : List Char → Bool
  | [] => false
  | [c] => c = '\n'
  | _ :: c :: rest => endsNl (c :: rest)

/-- Python `f.readlines()`: split the content into lines, each line keeping
its terminating newline; a final fragment without a newline is kept as a
last line; the empty content yields no lines. -/
def pyLines : List Char → List (List Char)
  | [] => []
  | c :: rest =>
    match pyLines rest with
    | [] => [[c]]
    | l :: ls => if c = '\n' then [c] :: l :: ls else (c :: l) :: ls

/-- Quote characters accepted by the `src` attribute pattern. -/
def isQuote (c : Char) : Bool := c = '"' || c = '\''

/-- Lazy `(.*?)\)` after the opening parenthesis of a markdown image:
capture up to the first `)`, failing on a newline (as `.` does not match
newlines). -/
def mdUrl : List Char → List Char → Option (List Char)
  | _, [] => none
  | acc, c :: rest =>
    if c = ')' then some acc.reverse
    else if c = '\n' then none
    else mdUrl (c :: acc) rest

/-- Backtracking for `.*?\]\((.*?)\)` after the `![` prefix of the markdown
image pattern: try each `]` from the left; on `](`, attempt to capture a
url; a newline in the alt text aborts the attempt at this start position. -/
def mdAfterAlt : List Char → Option (List Char)
  | [] => none
  | c :: rest =>
    if c = '\n' then none
    else if c = ']' then
      match rest with
      | '(' :: rest2 =>
        match mdUrl [] rest2 with
        | some u => some u
        | none => mdAfterAlt rest
      | _ => mdAfterAlt rest
    else mdAfterAlt rest

/-- Python `re.search(r'!\[.*?\]\((.*?)\)', content)`: the leftmost match of
the markdown image pattern, returning the captured url group. -/
def findMd : List Char → Option (List Char)
  | [] => none
  | c :: rest =>
    if c = '!' then
      match rest with
      | '[' :: rest2 =>
        match mdAfterAlt rest2 with
        | some u => some u
        | none => findMd rest
      | _ => findMd rest
    else findMd rest

/-- Greedy `(["\'])([^"\']+)["\']` tail of the img pattern starting at the
character after `src=`: an opening quote, a non-empty run of non-quote
characters (captured), then a closing quote. -/
def htmlUrlAcc : List Char → List Char → Option (List Char)
  | _, [] => none
  | acc, c :: rest =>
    if isQuote c then (if acc = [] then none else some acc.reverse)
    else htmlUrlAcc (c :: acc) rest

/-- Attempt of `src=["\']([^"\']+)["\']` at the current position inside an
`<img` tag; allowed only when at least one character was already consumed
by `[^>]+` (the `consumed` flag). -/
def htmlTry : Bool → List Char → Option (List Char) → Option (List Char)
  | false, _, best => best
  | true, 's' :: 'r' :: 'c' :: '=' :: rest2, best =>
    match rest2 with
    | q :: rest3 => if isQuote q then
        match htmlUrlAcc [] rest3 with
        | some u => some u
        | none => best
      else best
    | [] => best
  | true, _, best => best

/-- Backtracking for `[^>]+src=...` after the `<img` prefix: `[^>]+` is
greedy, so among all viable `src=` positions within the run of non-`>`
characters the last one wins; scanning stops at the first `>`. -/
def htmlScan : List Char → Bool → Option (List Char) → Option (List Char)
  | [], _, best => best
  | c :: rest, consumed, best =>
    if c = '>' then best
    else htmlScan rest true (htmlTry consumed (c :: rest) best)

/-- Python `re.search(r'<img[^>]+src=["\']([^"\']+)["\']', content)` (no
IGNORECASE flag): the leftmost position where the whole pattern matches,
returning the captured url group. -/
def findHtml : List Char → Option (List Char)
  | [] => none
  | c :: rest =>
    if c = '<' then
      match rest with
      | 'i' :: 'm' :: 'g' :: rest2 =>
        match htmlScan rest2 false none with
        | some u => some u
        | none => findHtml rest
      | _ => findHtml rest
    else findHtml rest

/-- `find_first_image(content)` from the source: the markdown image pattern
is searched first; only if it has no match is the html img pattern tried. -/
def find_first_image (content : List Char) : Option (List Char) :=
  match findMd content with
  | some u => some u
  | none => findHtml content

/-- `DEFAULT_IMAGE` constant from the source. -/
def DEFAULT_IMAGE : List Char := chars "/assets/favicon/android-chrome-512x512.png"

/-- Python `find_first_image(body) or DEFAULT_IMAGE`: `None` and the empty
string are falsy, so both fall back to the default. -/
def pyOr (x : Option (List Char)) (d : List Char) : List Char :=
  match x with
  | some u => if u = [] then d else u
  | none => d

/-- `line.strip().startswith('title:')` from the source. -/
def isTitleLine (l : List Char) : Bool := startsWithL (chars "title:") (pyStrip l)

/-- `line.strip().startswith('image:')` from the source. -/
def isImageLine (l : List Char) : Bool := startsWithL (chars "image:") (pyStrip l)

/-- `line.strip() == '---'` from the source's closing-marker search. -/
def isClosingLine (l : List Char) : Bool := pyStrip l = marker

/-- The source's loop over `lines[1:]` looking for the first line that
strips to `---`: returns the lines before it, the closing line itself, and
the lines after it. -/
def splitAtClosing : List (List Char) → Option (List (List Char) × List Char × List (List Char))
  | [] => none
  | l :: rest =>
    if isClosingLine l then some ([], l, rest)
    else
      match splitAtClosing rest with
      | some (fm, c, b) => some (l :: fm, c, b)
      | none => none

/-- Lines 18-34 of the source: read the lines, require the first line to
strip to something starting with `---`, find the closing marker, and return
the front matter `lines[:end_idx]` (which includes the opening marker
line), the closing line, and the concatenated body `lines[end_idx+1:]`. -/
def parseHeader (content : List Char) : Option (List (List Char) × List Char × List Char) :=
  match pyLines content with
  | [] => none
  | first :: rest =>
    if startsWithL marker (pyStrip first) then
      match splitAtClosing rest with
      | some (fmTail, closing, bodyLines) => some (first :: fmTail, closing, bodyLines.flatten)
      | none => none
    else none

/-- The inserted line `f'image: {image_url}\n'`. -/
def imgLine (url : List Char) : List Char := chars "image: " ++ url ++ ['\n']

/-- The source's insertion loop (lines 43-49) with its `image_inserted`
flag: after the first line stripping to a `title:` prefix, append the image
line once. -/
def insertImageAux (url : List Char) : List (List Char) → Bool → List (List Char)
  | [], _ => []
  | l :: rest, inserted =>
    if isTitleLine l && !inserted then
      l :: imgLine url :: insertImageAux url rest true
    else
      l :: insertImageAux url rest inserted

/-- `new_frontmatter` built from `frontmatter` and the resolved url. -/
def insertImage (fm : List (List Char)) (url : List Char) : List (List Char) :=
  insertImageAux url fm false

/-- `add_image_to_frontmatter(filepath)` with file I/O abstracted away:
takes the old file content and returns the function's boolean result
together with the (possibly rewritten) file content.  On the `True` path
the file is overwritten with the new front matter, the closing line, a
newline character, and the body. -/
def add_image_to_frontmatter (content : List Char) : Bool × List Char :=
  match parseHeader content with
  | none => (false, content)
  | some (fm, closing, body) =>
    if fm.any isImageLine then (false, content)
    else
      (true, (insertImage fm (pyOr (find_first_image body) DEFAULT_IMAGE)).flatten
        ++ closing ++ '\n' :: body)

/-- Whether the first-line eligibility check of line 21 of the source
passes: some line exists and its stripped form starts with `---`. -/
def firstLineOk (content : List Char) : Bool :=
  match pyLines content with
  | [] => false
  | l :: _ => startsWithL marker (pyStrip l)

/-- Whether the document parses and its front matter has a `title:` line. -/
def headerHasTitle (content : List Char) : Bool :=
  match parseHeader content with
  | some (fm, _, _) => fm.any isTitleLine
  | none => false

/-- The body of a document as recovered by the header parse. -/
def bodyAfterHeader (content : List Char) : Option (List Char) :=
  match parseHeader content with
  | some (_, _, b) => some b
  | none => none

/-- A proper readlines segment: non-empty, with no newline before its last
character. -/
def properSeg (l : List Char) : Prop := l ≠ [] ∧ ∀ c ∈ l.dropLast, c ≠ '\n'

/-- The shape invariant of a readlines result: every line is a proper
segment and every line except possibly the last ends with a newline. -/
def Chain : List (List Char) → Prop
  | [] => True
  | l :: ls => properSeg l ∧ (ls ≠ [] → endsNl l = true) ∧ Chain ls

theorem pyLines_ne_nil {s : List Char} (h : s ≠ []) : pyLines s ≠ [] := by
  cases s with
  | nil => exact absurd rfl h
  | cons c rest =>
    simp only [pyLines]
    cases pyLines rest with
    | nil => simp
    | cons l ls => by_cases hc : c = '\n' <;> simp [hc]

theorem pyLines_nl (t : List Char) : pyLines ('\n' :: t) = ['\n'] :: pyLines t := by
  simp only [pyLines]
  cases pyLines t with
  | nil => rfl
  | cons l ls => simp

theorem endsNl_cons (c : Char) {l : List Char} (h : l ≠ []) : endsNl (c :: l) = endsNl l := by
  cases l with
  | nil => exact absurd rfl h
  | cons x r => rfl

theorem endsNl_append (a : List Char) {b : List Char} (hb : b ≠ []) :
    endsNl (a ++ b) = endsNl b := by
  induction a with
  | nil => rfl
  | cons c a ih =>
    rw [List.cons_append, endsNl_cons c (by simp [hb]), ih]

theorem flatten_pyLines (s : List Char) : (pyLines s).flatten = s := by
  induction s with
  | nil => rfl
  | cons c rest ih =>
    simp only [pyLines]
    cases h : pyLines rest with
    | nil =>
      have : rest = [] := by
        by_contra hne
        exact pyLines_ne_nil hne h
      subst this
      simp
    | cons l ls =>
      rw [h] at ih
      by_cases hc : c = '\n' <;>
        simp_all [List.flatten_cons]

theorem chain_pyLines (s : List Char) : Chain (pyLines s) := by
  induction s with
  | nil => simp [pyLines, Chain]
  | cons c rest ih =>
    simp only [pyLines]
    cases h : pyLines rest with
    | nil =>
      exact ⟨⟨by simp, by simp⟩, by simp, trivial⟩
    | cons l ls =>
      rw [h] at ih
      by_cases hc : c = '\n'
      · subst hc
        simp only [if_pos rfl]
        exact ⟨⟨by simp, by simp⟩, fun _ => by decide, ih⟩
      · simp only [if_neg hc]
        obtain ⟨hp, he, hch⟩ := ih
        refine ⟨⟨by simp, ?_⟩, ?_, hch⟩
        · intro x hx
          cases l with
          | nil => exact absurd rfl hp.1
          | cons y r =>
            rcases List.mem_cons.1 hx with rfl | hx'
            · exact hc
            · exact hp.2 x hx'
        · intro hls
          rw [endsNl_cons c hp.1]
          exact he hls

theorem pyLines_seg (l : List Char) (hp : properSeg l) (he : endsNl l = true)
    (t : List Char) : pyLines (l ++ t) = l :: pyLines t := by
  induction l with
  | nil => exact absurd rfl hp.1
  | cons c d ih =>
    cases d with
    | nil =>
      have hc : c = '\n' := by simpa [endsNl] using he
      subst hc
      simpa using pyLines_nl t
    | cons d' r =>
      have hc : c ≠ '\n' := hp.2 c (by simp [List.dropLast])
      have hp' : properSeg (d' :: r) := by
        refine ⟨by simp, fun x hx => hp.2 x ?_⟩
        show x ∈ (c :: d' :: r).dropLast
        simpa [List.dropLast] using Or.inr hx
      have he' : endsNl (d' :: r) = true := he
      have step := ih hp' he'
      show pyLines (c :: ((d' :: r) ++ t)) = _
      rw [pyLines, step]
      simp [hc]

theorem pyLines_append (a : List Char) (he : endsNl a = true) (t : List Char) :
    pyLines (a ++ t) = pyLines a ++ pyLines t := by
  induction a with
  | nil => simp [endsNl] at he
  | cons c d ih =>
    cases d with
    | nil =>
      have hc : c = '\n' := by simpa [endsNl] using he
      subst hc
      rw [List.cons_append, List.nil_append, pyLines_nl,
        show pyLines ['\n'] = [['\n']] from rfl]
      rfl
    | cons d' r =>
      have step := ih (he : endsNl (d' :: r) = true)
      show pyLines (c :: ((d' :: r) ++ t)) = _
      rw [pyLines, step]
      cases h : pyLines (d' :: r) with
      | nil => exact absurd h (pyLines_ne_nil (by simp))
      | cons l ls =>
        show _ = pyLines (c :: (d' :: r)) ++ _
        rw [pyLines, h]
        by_cases hc : c = '\n' <;> simp [hc]

theorem pyLines_flatten_append (L : List (List Char))
    (h : ∀ l ∈ L, properSeg l ∧ endsNl l = true) (t : List Char) :
    pyLines (L.flatten ++ t) = L ++ pyLines t := by
  induction L with
  | nil => simp
  | cons l L ih =>
    have hl := h l (by simp)
    rw [List.flatten_cons, List.append_assoc, pyLines_seg l hl.1 hl.2,
      ih (fun x hx => h x (by simp [hx]))]
    rfl

theorem pyLines_noNl_append (x t : List Char) (hx : x ≠ []) (h : ∀ c ∈ x, c ≠ '\n') :
    ∃ w ls, pyLines (x ++ t) = (x ++ w) :: ls := by
  induction x with
  | nil => exact absurd rfl hx
  | cons c d ih =>
    cases d with
    | nil =>
      show ∃ w ls, pyLines (c :: t) = _
      rw [pyLines]
      cases hp : pyLines t with
      | nil => exact ⟨[], [], by simp⟩
      | cons l ls =>
        have hc : c ≠ '\n' := h c (by simp)
        exact ⟨l, ls, by simp [hc]⟩
    | cons d' r =>
      obtain ⟨w, ls, hw⟩ := ih (by simp) (fun e he' => h e (by simp [he']))
      have hc : c ≠ '\n' := h c (by simp)
      refine ⟨w, ls, ?_⟩
      show pyLines (c :: ((d' :: r) ++ t)) = _
      rw [pyLines, hw]
      simp [hc]

theorem chain_split (xs ys : List (List Char)) (h : Chain (xs ++ ys)) (hys : ys ≠ []) :
    (∀ x ∈ xs, properSeg x ∧ endsNl x = true) ∧ Chain ys := by
  induction xs with
  | nil => exact ⟨by simp, h⟩
  | cons a xs ih =>
    obtain ⟨hpa, hea, hch⟩ := h
    obtain ⟨h1, h2⟩ := ih hch
    refine ⟨?_, h2⟩
    intro x hx
    rcases List.mem_cons.1 hx with rfl | hx'
    · exact ⟨hpa, hea (fun hh => hys (List.append_eq_nil.mp hh).2)⟩
    · exact h1 x hx'

theorem sac_eq {ls fm : List (List Char)} {c : List Char} {b : List (List Char)}
    (h : splitAtClosing ls = some (fm, c, b)) :
    ls = fm ++ c :: b ∧ (∀ x ∈ fm, isClosingLine x = false) ∧ isClosingLine c = true := by
  induction ls generalizing fm with
  | nil => simp [splitAtClosing] at h
  | cons l rest ih =>
    rw [splitAtClosing] at h
    by_cases hc : isClosingLine l = true
    · simp only [hc, if_true] at h
      obtain ⟨rfl, rfl, rfl⟩ := by simpa using h
      exact ⟨rfl, by simp, hc⟩
    · simp only [hc, if_false, Bool.false_eq_true] at h
      cases hs : splitAtClosing rest with
      | none => rw [hs] at h; simp at h
      | some p =>
        obtain ⟨fm', c', b'⟩ := p
        rw [hs] at h
        obtain ⟨rfl, rfl, rfl⟩ := by simpa using h
        obtain ⟨he, hnc, hcc⟩ := ih hs
        refine ⟨by rw [he]; rfl, ?_, hcc⟩
        intro x hx
        rcases List.mem_cons.1 hx with rfl | hx'
        · simpa using hc
        · exact hnc x hx'

theorem sac_prepend (xs ys : List (List Char)) (h : ∀ x ∈ xs, isClosingLine x = false) :
    splitAtClosing (xs ++ ys) =
      (splitAtClosing ys).map (fun p => (xs ++ p.1, p.2.1, p.2.2)) := by
  induction xs with
  | nil =>
    simp only [List.nil_append]
    cases splitAtClosing ys with
    | none => rfl
    | some p => simp
  | cons x xs ih =>
    have hx : isClosingLine x = false := h x (by simp)
    show splitAtClosing (x :: (xs ++ ys)) = _
    rw [splitAtClosing]
    simp only [hx, Bool.false_eq_true, if_false]
    rw [ih (fun e he => h e (by simp [he]))]
    cases splitAtClosing ys with
    | none => rfl
    | some p => simp

theorem insertImageAux_inserted (url : List Char) (fm : List (List Char)) :
    insertImageAux url fm true = fm := by
  induction fm with
  | nil => rfl
  | cons l rest ih => simp [insertImageAux, ih]

theorem insertImageAux_noTitle (url : List Char) (fm : List (List Char)) (b : Bool)
    (h : ∀ x ∈ fm, isTitleLine x = false) : insertImageAux url fm b = fm := by
  induction fm with
  | nil => rfl
  | cons l rest ih =>
    have hl := h l (by simp)
    simp [insertImageAux, hl, ih (fun x hx => h x (by simp [hx]))]

theorem insertImage_eq_of_title (fm₁ : List (List Char)) (l : List Char)
    (fm₂ : List (List Char)) (url : List Char)
    (h₁ : ∀ x ∈ fm₁, isTitleLine x = false) (hl : isTitleLine l = true) :
    insertImage (fm₁ ++ l :: fm₂) url = fm₁ ++ l :: imgLine url :: fm₂ := by
  unfold insertImage
  induction fm₁ with
  | nil => simp [insertImageAux, hl, insertImageAux_inserted]
  | cons x xs ih =>
    have hx := h₁ x (by simp)
    simp only [List.cons_append, insertImageAux, hx, Bool.false_and,
      Bool.false_eq_true, if_false, List.append_eq]
    rw [ih (fun e he => h₁ e (by simp [he]))]

theorem startsWithL_iff (p s : List Char) : startsWithL p s = true ↔ ∃ t, s = p ++ t := by
  induction p generalizing s with
  | nil => simp [startsWithL]
  | cons a p ih =>
    cases s with
    | nil => simp [startsWithL]
    | cons c cs =>
      simp only [startsWithL, Bool.and_eq_true, decide_eq_true_eq, ih]
      constructor
      · rintro ⟨rfl, t, rfl⟩
        exact ⟨t, rfl⟩
      · rintro ⟨t, h⟩
        injection h with h1 h2
        exact ⟨h1.symm, t, h2⟩

theorem isImageLine_image_prefix (r : List Char) :
    isImageLine (chars "image: " ++ r) = true := by
  unfold isImageLine pyStrip
  have h1 : (chars "image: " ++ r).dropWhile pyIsSpace = chars "image: " ++ r := by
    rw [show chars "image: " ++ r = 'i' :: (chars "mage: " ++ r) from rfl]
    rw [List.dropWhile_cons]
    simp [pyIsSpace]
  rw [h1, List.reverse_append, List.dropWhile_append]
  by_cases h2 : (r.reverse.dropWhile pyIsSpace).isEmpty
  · rw [if_pos h2]
    decide
  · rw [if_neg h2, List.reverse_append, List.reverse_reverse]
    rw [startsWithL_iff]
    exact ⟨' ' :: (r.reverse.dropWhile pyIsSpace).reverse, rfl⟩

theorem isTitleLine_false_of_marker {l : List Char}
    (h : startsWithL marker (pyStrip l) = true) : isTitleLine l = false := by
  obtain ⟨t, ht⟩ := (startsWithL_iff _ _).1 h
  unfold isTitleLine
  rw [ht]
  simp only [marker, List.cons_append]
  rw [show chars "title:" = 't' :: chars "itle:" from rfl]
  simp [startsWithL]

theorem isClosingLine_false_of_image {l : List Char}
    (h : isImageLine l = true) : isClosingLine l = false := by
  obtain ⟨t, ht⟩ := (startsWithL_iff _ _).1 h
  unfold isClosingLine
  simp only [decide_eq_false_iff_not]
  rw [ht]
  rw [show chars "image:" = 'i' :: chars "mage:" from rfl]
  simp [marker]

theorem any_first_split {α : Type} (p : α → Bool) (L : List α) (h : L.any p = true) :
    ∃ L₁ x L₂, L = L₁ ++ x :: L₂ ∧ (∀ y ∈ L₁, p y = false) ∧ p x = true := by
  induction L with
  | nil => simp at h
  | cons a L ih =>
    by_cases ha : p a = true
    · exact ⟨[], a, L, rfl, by simp, ha⟩
    · have hL : L.any p = true := by
        rcases (List.any_eq_true).1 h with ⟨x, hx, hpx⟩
        rcases List.mem_cons.1 hx with rfl | hx'
        · exact absurd hpx ha
        · exact (List.any_eq_true).2 ⟨x, hx', hpx⟩
      obtain ⟨L₁, x, L₂, rfl, h1, hx⟩ := ih hL
      refine ⟨a :: L₁, x, L₂, rfl, ?_, hx⟩
      intro y hy
      rcases List.mem_cons.1 hy with rfl | hy'
      · simpa using ha
      · exact h1 y hy'

theorem parseHeader_of_pyLines {s first : List Char} {rest : List (List Char)}
    (hl : pyLines s = first :: rest) :
    parseHeader s = if startsWithL marker (pyStrip first) then
      match splitAtClosing rest with
      | some (fmTail, closing, bodyLines) =>
        some (first :: fmTail, closing, bodyLines.flatten)
      | none => none
    else none := by
  unfold parseHeader
  rw [hl]

theorem parseHeader_eq {s : List Char} {fm : List (List Char)} {c b : List Char}
    (h : parseHeader s = some (fm, c, b)) :
    ∃ first fmTail bls, fm = first :: fmTail ∧ pyLines s = fm ++ c :: bls ∧
      b = bls.flatten ∧ startsWithL marker (pyStrip first) = true ∧
      (∀ x ∈ fmTail, isClosingLine x = false) ∧ isClosingLine c = true := by
  cases hl : pyLines s with
  | nil =>
    rw [parseHeader] at h
    rw [hl] at h
    simp at h
  | cons first rest =>
    rw [parseHeader_of_pyLines hl] at h
    by_cases hm : startsWithL marker (pyStrip first) = true
    · rw [if_pos hm] at h
      cases hs : splitAtClosing rest with
      | none => rw [hs] at h; simp at h
      | some p =>
        obtain ⟨fmT, c', bls⟩ := p
        rw [hs] at h
        obtain ⟨rfl, rfl, rfl⟩ : first :: fmT = fm ∧ c' = c ∧ bls.flatten = b := by
          simpa using h
        obtain ⟨he, hnc, hcc⟩ := sac_eq hs
        exact ⟨first, fmT, bls, rfl, by rw [he]; rfl, rfl, hm, hnc, hcc⟩
    · rw [if_neg hm] at h; simp at h

theorem add_eq_some (s : List Char) (fm : List (List Char)) (c b : List Char)
    (h : parseHeader s = some (fm, c, b)) (hni : fm.any isImageLine = false) :
    add_image_to_frontmatter s =
      (true, (insertImage fm (pyOr (find_first_image b) DEFAULT_IMAGE)).flatten
        ++ c ++ '\n' :: b) := by
  unfold add_image_to_frontmatter
  rw [h]
  simp only [hni, Bool.false_eq_true, if_false]

theorem add_false_of_image (s : List Char) (fm : List (List Char)) (c b : List Char)
    (h : parseHeader s = some (fm, c, b)) (hi : fm.any isImageLine = true) :
    add_image_to_frontmatter s = (false, s) := by
  unfold add_image_to_frontmatter
  rw [h]
  simp only [hi, if_true]

theorem add_false_of_parse_none (s : List Char) (h : parseHeader s = none) :
    add_image_to_frontmatter s = (false, s) := by
  unfold add_image_to_frontmatter
  rw [h]

theorem add_not_changed {s : List Char} (h : (add_image_to_frontmatter s).1 = false) :
    add_image_to_frontmatter s = (false, s) := by
  cases hp : parseHeader s with
  | none => exact add_false_of_parse_none s hp
  | some p =>
    obtain ⟨fm, c, b⟩ := p
    by_cases hi : fm.any isImageLine = true
    · exact add_false_of_image s fm c b hp hi
    · rw [add_eq_some s fm c b hp (by simpa using hi)] at h
      simp at h

theorem content_decomp {s : List Char} {fm : List (List Char)} {c b : List Char}
    (h : parseHeader s = some (fm, c, b)) : s = fm.flatten ++ c ++ b := by
  obtain ⟨first, fmT, bls, rfl, hlines, rfl, -, -, -⟩ := parseHeader_eq h
  calc s = (pyLines s).flatten := (flatten_pyLines s).symm
    _ = ((first :: fmT) ++ c :: bls).flatten := by rw [hlines]
    _ = _ := by simp [List.flatten_append, List.flatten_cons, List.append_assoc]

theorem second_run_skips (s : List Char) (fm : List (List Char)) (c b : List Char)
    (hp : parseHeader s = some (fm, c, b))
    (hni : fm.any isImageLine = false)
    (ht : fm.any isTitleLine = true) :
    add_image_to_frontmatter ((add_image_to_frontmatter s).2) =
      (false, (add_image_to_frontmatter s).2) := by
  obtain ⟨first, fmT, bls, hfm, hlines, hb, hm, hnc, hcc⟩ := parseHeader_eq hp
  subst hfm
  have hchain := chain_pyLines s
  rw [hlines] at hchain
  obtain ⟨hfmSeg, -⟩ := chain_split _ (c :: bls) hchain (by simp)
  have hft : isTitleLine first = false := isTitleLine_false_of_marker hm
  have htT : fmT.any isTitleLine = true := by simpa [hft] using ht
  obtain ⟨t₁, l, t₂, hsplit, ht₁, hl⟩ := any_first_split _ _ htT
  subst hsplit
  set url := pyOr (find_first_image b) DEFAULT_IMAGE with hurl
  have hins : insertImage (first :: (t₁ ++ l :: t₂)) url
      = (first :: t₁) ++ l :: imgLine url :: t₂ := by
    have h1 : ∀ x ∈ first :: t₁, isTitleLine x = false := by
      intro x hx
      rcases List.mem_cons.1 hx with rfl | hx'
      · exact hft
      · exact ht₁ x hx'
    simpa [List.cons_append] using insertImage_eq_of_title (first :: t₁) l t₂ url h1 hl
  have hadd := add_eq_some s _ c b hp hni
  rw [hins] at hadd
  have hOeq : ((first :: t₁) ++ l :: imgLine url :: t₂).flatten ++ c ++ '\n' :: b
      = ((first :: t₁) ++ [l]).flatten
        ++ (imgLine url ++ (t₂.flatten ++ (c ++ '\n' :: b))) := by
    simp [List.flatten_append, List.flatten_cons, List.append_assoc]
  have hsegs : ∀ x ∈ (first :: t₁) ++ [l], properSeg x ∧ endsNl x = true := by
    intro x hx
    apply hfmSeg
    simp only [List.mem_append, List.mem_cons, List.mem_singleton,
      List.not_mem_nil, or_false] at hx
    rcases hx with (rfl | hx') | rfl
    · simp
    · simp [hx']
    · simp
  have himgNl : endsNl (imgLine url) = true := by
    rw [imgLine, endsNl_append (chars "image: " ++ url) (by simp)]
    decide
  obtain ⟨w, ls2, hw⟩ := pyLines_noNl_append (chars "image: ") (url ++ ['\n'])
    (by decide) (by decide)
  have himg0 : isImageLine (chars "image: " ++ w) = true := isImageLine_image_prefix w
  have himg0c : isClosingLine (chars "image: " ++ w) = false :=
    isClosingLine_false_of_image himg0
  have hw' : pyLines (imgLine url) = (chars "image: " ++ w) :: ls2 := by
    rw [imgLine, List.append_assoc]
    exact hw
  have hlinesO : pyLines (((first :: t₁) ++ l :: imgLine url :: t₂).flatten ++ c ++ '\n' :: b)
      = first :: ((t₁ ++ [l])
        ++ ((chars "image: " ++ w) :: (ls2 ++ pyLines (t₂.flatten ++ (c ++ '\n' :: b))))) := by
    rw [hOeq, pyLines_flatten_append _ hsegs, pyLines_append _ himgNl, hw']
    simp [List.append_assoc, List.cons_append]
  have hnc2 : ∀ x ∈ t₁ ++ [l], isClosingLine x = false := by
    intro x hx
    simp only [List.mem_append, List.mem_singleton, List.not_mem_nil, or_false,
      List.mem_cons] at hx
    rcases hx with hx' | rfl
    · exact hnc x (by simp [hx'])
    · exact hnc x (by simp)
  have hparse := parseHeader_of_pyLines hlinesO
  rw [if_pos hm, sac_prepend (t₁ ++ [l]) _ hnc2, splitAtClosing] at hparse
  simp only [himg0c, Bool.false_eq_true, if_false] at hparse
  rw [hadd]
  show add_image_to_frontmatter (((first :: t₁) ++ l :: imgLine url :: t₂).flatten ++ c ++ '\n' :: b)
    = (false, ((first :: t₁) ++ l :: imgLine url :: t₂).flatten ++ c ++ '\n' :: b)
  cases hz : splitAtClosing (ls2 ++ pyLines (t₂.flatten ++ (c ++ '\n' :: b))) with
  | none =>
    rw [hz] at hparse
    simp only [Option.map_none'] at hparse
    exact add_false_of_parse_none _ hparse
  | some q =>
    obtain ⟨f₂, cc, bb⟩ := q
    rw [hz] at hparse
    simp only [Option.map_some'] at hparse
    apply add_false_of_image _ _ _ _ hparse
    refine (List.any_eq_true).2 ⟨chars "image: " ++ w, ?_, himg0⟩
    simp [List.mem_cons, List.mem_append]

theorem reparse_core (first c b : List Char) (newT : List (List Char))
    (hm : startsWithL marker (pyStrip first) = true)
    (hsegs : ∀ x ∈ first :: newT, properSeg x ∧ endsNl x = true)
    (hnc : ∀ x ∈ newT, isClosingLine x = false)
    (hcc : isClosingLine c = true)
    (hcSeg : properSeg c) (hcNl : endsNl c = true) :
    parseHeader ((first :: newT).flatten ++ c ++ '\n' :: b) =
      some (first :: newT, c, '\n' :: b) := by
  have hOeq : (first :: newT).flatten ++ c ++ '\n' :: b
      = (first :: newT).flatten ++ (c ++ '\n' :: b) := by
    simp [List.append_assoc]
  have hlinesO : pyLines ((first :: newT).flatten ++ c ++ '\n' :: b)
      = first :: (newT ++ (c :: ['\n'] :: pyLines b)) := by
    rw [hOeq, pyLines_flatten_append _ hsegs, pyLines_seg c hcSeg hcNl, pyLines_nl]
    rfl
  have hparse := parseHeader_of_pyLines hlinesO
  rw [if_pos hm, sac_prepend newT _ hnc, splitAtClosing, if_pos hcc] at hparse
  simp only [Option.map_some'] at hparse
  rw [hparse]
  simp [List.flatten_cons, flatten_pyLines]

theorem isImageLine_imgLine (url : List Char) : isImageLine (imgLine url) = true := by
  rw [imgLine, List.append_assoc]
  exact isImageLine_image_prefix (url ++ ['\n'])

theorem reparse_exact (s : List Char) (fm : List (List Char)) (c b : List Char)
    (hp : parseHeader s = some (fm, c, b))
    (hni : fm.any isImageLine = false)
    (hcNl : endsNl c = true)
    (hu : ∀ ch ∈ pyOr (find_first_image b) DEFAULT_IMAGE, ch ≠ '\n') :
    parseHeader ((add_image_to_frontmatter s).2) =
      some (insertImage fm (pyOr (find_first_image b) DEFAULT_IMAGE), c, '\n' :: b) := by
  obtain ⟨first, fmT, bls, hfm, hlines, hb, hm, hnc, hcc⟩ := parseHeader_eq hp
  subst hfm
  have hchain := chain_pyLines s
  rw [hlines] at hchain
  obtain ⟨hfmSeg, hchain2⟩ := chain_split _ (c :: bls) hchain (by simp)
  have hcSeg : properSeg c := hchain2.1
  have hft : isTitleLine first = false := isTitleLine_false_of_marker hm
  set url := pyOr (find_first_image b) DEFAULT_IMAGE with hurl
  have hadd := add_eq_some s _ c b hp hni
  have himgSeg : properSeg (imgLine url) := by
    constructor
    · simp [imgLine]
    · intro ch hch
      rw [imgLine, List.dropLast_concat] at hch
      rcases List.mem_append.1 hch with h1 | h2
      · exact (by decide : ∀ e ∈ chars "image: ", e ≠ '\n') ch h1
      · exact hu ch h2
  have himgNl : endsNl (imgLine url) = true := by
    rw [imgLine, endsNl_append (chars "image: " ++ url) (by simp)]
    decide
  have himgNc : isClosingLine (imgLine url) = false :=
    isClosingLine_false_of_image (isImageLine_imgLine url)
  by_cases htc : fmT.any isTitleLine = true
  · obtain ⟨t₁, l, t₂, hsplit, ht₁, hl⟩ := any_first_split _ _ htc
    subst hsplit
    have h1 : ∀ x ∈ first :: t₁, isTitleLine x = false := by
      intro x hx
      rcases List.mem_cons.1 hx with rfl | hx'
      · exact hft
      · exact ht₁ x hx'
    have hins : insertImage (first :: (t₁ ++ l :: t₂)) url
        = first :: (t₁ ++ l :: imgLine url :: t₂) := by
      simpa [List.cons_append] using insertImage_eq_of_title (first :: t₁) l t₂ url h1 hl
    rw [hadd, hins]
    show parseHeader ((first :: (t₁ ++ l :: imgLine url :: t₂)).flatten ++ c ++ '\n' :: b) = _
    apply reparse_core first c b (t₁ ++ l :: imgLine url :: t₂) hm ?seg2 ?nc2 hcc hcSeg hcNl
    case seg2 =>
      intro x hx
      simp only [List.mem_cons, List.mem_append] at hx
      rcases hx with rfl | hx' | rfl | rfl | hx'
      · exact hfmSeg x (by simp)
      · exact hfmSeg x (by simp [hx'])
      · exact hfmSeg x (by simp)
      · exact ⟨himgSeg, himgNl⟩
      · exact hfmSeg x (by simp [hx'])
    case nc2 =>
      intro x hx
      simp only [List.mem_append, List.mem_cons] at hx
      rcases hx with hx' | rfl | rfl | hx'
      · exact hnc x (by simp [hx'])
      · exact hnc x (by simp)
      · exact himgNc
      · exact hnc x (by simp [hx'])
  · have hntT : ∀ x ∈ fmT, isTitleLine x = false := by
      intro x hx
      exact Bool.eq_false_iff.2 ((List.any_eq_false.1 (Bool.eq_false_iff.2 htc)) x hx)
    have hnt : ∀ x ∈ first :: fmT, isTitleLine x = false := by
      intro x hx
      rcases List.mem_cons.1 hx with rfl | hx'
      · exact hft
      · exact hntT x hx'
    have hins : insertImage (first :: fmT) url = first :: fmT :=
      insertImageAux_noTitle url _ false hnt
    rw [hadd, hins]
    show parseHeader ((first :: fmT).flatten ++ c ++ '\n' :: b) = _
    exact reparse_core first c b fmT hm hfmSeg hnc hcc hcSeg hcNl

theorem add_rewrite_shape (s : List Char) (fm₁ : List (List Char)) (l : List Char)
    (fm₂ : List (List Char)) (c b : List Char)
    (hp : parseHeader s = some (fm₁ ++ l :: fm₂, c, b))
    (hni : (fm₁ ++ l :: fm₂).any isImageLine = false)
    (h₁ : ∀ x ∈ fm₁, isTitleLine x = false) (hl : isTitleLine l = true) :
    add_image_to_frontmatter s =
      (true, fm₁.flatten ++ l ++ imgLine (pyOr (find_first_image b) DEFAULT_IMAGE)
        ++ fm₂.flatten ++ c ++ '\n' :: b) := by
  have hadd := add_eq_some s _ c b hp hni
  rw [insertImage_eq_of_title fm₁ l fm₂ _ h₁ hl] at hadd
  rw [hadd]
  simp [List.flatten_append, List.flatten_cons, List.append_assoc]

/-! ## The claims -/

/-- C1 (amended): running the Document Processor twice yields the same
final file content and result as running it once whenever the first run
made no change, or the front matter contains a `title:` line (so the first
run actually inserted an `image:` field and the second run detects it and
makes no change).  For an eligible image-less document with no `title:`
line the second run rewrites again instead (see the counterexample). -/
theorem C1_idempotent_on_titled (s : List Char)
    (h : (add_image_to_frontmatter s).1 = false ∨ headerHasTitle s = true) :
    add_image_to_frontmatter ((add_image_to_frontmatter s).2) =
      (false, (add_image_to_frontmatter s).2) := by
  rcases h with h | h
  · have h2 := add_not_changed h
    rw [h2]
    exact h2
  · unfold headerHasTitle at h
    cases hp : parseHeader s with
    | none =>
      rw [hp] at h
      exact absurd h Bool.false_ne_true
    | some p =>
      obtain ⟨fm, c, b⟩ := p
      rw [hp] at h
      by_cases hi : fm.any isImageLine = true
      · have h2 := add_false_of_image s fm c b hp hi
        rw [h2]
        exact h2
      · exact second_run_skips s fm c b hp (Bool.eq_false_iff.2 hi) h

/-- C1 counterexample: a well-formed document without a `title:` line is
rewritten on every run (each run appends one more newline after the
closing marker), so running the processor twice does not yield the same
final content as running it once. -/
theorem C1_cex :
    (add_image_to_frontmatter
        ((add_image_to_frontmatter (chars "---\na: b\n---\nx\n")).2)).2 ≠
      (add_image_to_frontmatter (chars "---\na: b\n---\nx\n")).2 := by
  decide

theorem C1_witness :
    headerHasTitle (chars "---\ntitle: T\n---\nbody\n") = true ∧
    add_image_to_frontmatter
        ((add_image_to_frontmatter (chars "---\ntitle: T\n---\nbody\n")).2) =
      (false, (add_image_to_frontmatter (chars "---\ntitle: T\n---\nbody\n")).2) :=
  ⟨by decide, C1_idempotent_on_titled _ (Or.inr (by decide))⟩

/-- C2 (amended): for a well-formed document with no `image:` field and no
`title:` line, the header lines are left unmodified (no image field is
inserted), but the processor still rewrites the file (with one extra
newline after the closing marker) and reports it as CHANGED (returns
`true`), not as unchanged. -/
theorem C2_no_title_rewrite (s : List Char) (fm : List (List Char)) (c b : List Char)
    (hp : parseHeader s = some (fm, c, b))
    (hni : fm.any isImageLine = false)
    (hnt : ∀ x ∈ fm, isTitleLine x = false) :
    add_image_to_frontmatter s = (true, fm.flatten ++ c ++ '\n' :: b) := by
  have hadd := add_eq_some s fm c b hp hni
  rw [insertImage] at hadd
  rwa [insertImageAux_noTitle _ _ _ hnt] at hadd

/-- C2 counterexample: a well-formed, image-less document with no `title:`
line is reported as changed (`True`), contradicting the claim that it is
reported as unchanged. -/
theorem C2_cex :
    parseHeader (chars "---\na: b\n---\nx\n") =
      some ([chars "---\n", chars "a: b\n"], chars "---\n", chars "x\n") ∧
    ([chars "---\n", chars "a: b\n"] : List (List Char)).any isImageLine = false ∧
    ([chars "---\n", chars "a: b\n"] : List (List Char)).any isTitleLine = false ∧
    (add_image_to_frontmatter (chars "---\na: b\n---\nx\n")).1 = true := by
  decide

theorem C2_witness :
    parseHeader (chars "---\nk: v\n---\ny\n") =
      some ([chars "---\n", chars "k: v\n"], chars "---\n", chars "y\n") ∧
    add_image_to_frontmatter (chars "---\nk: v\n---\ny\n") =
      (true, ([chars "---\n", chars "k: v\n"] : List (List Char)).flatten
        ++ chars "---\n" ++ '\n' :: chars "y\n") :=
  ⟨by decide,
    C2_no_title_rewrite _ [chars "---\n", chars "k: v\n"] (chars "---\n") (chars "y\n")
      (by decide) (by decide) (by decide)⟩

/-- C3 (amended): the rewritten file content equals the input content with
exactly two insertions: the single `image: <url>` line right after the
first `title:` line, and one extra newline character right after the
closing marker line (the source writes the closing line, which already
ends in a newline, followed by another explicit newline). -/
theorem C3_rewrite_byte_diff (s : List Char) (fm₁ : List (List Char)) (l : List Char)
    (fm₂ : List (List Char)) (c b : List Char)
    (hp : parseHeader s = some (fm₁ ++ l :: fm₂, c, b))
    (hni : (fm₁ ++ l :: fm₂).any isImageLine = false)
    (h₁ : ∀ x ∈ fm₁, isTitleLine x = false) (hl : isTitleLine l = true) :
    add_image_to_frontmatter s =
      (true, fm₁.flatten ++ l ++ imgLine (pyOr (find_first_image b) DEFAULT_IMAGE)
        ++ fm₂.flatten ++ c ++ '\n' :: b) ∧
    s = fm₁.flatten ++ l ++ fm₂.flatten ++ c ++ b := by
  refine ⟨add_rewrite_shape s fm₁ l fm₂ c b hp hni h₁ hl, ?_⟩
  have hd := content_decomp hp
  rw [hd]
  simp [List.flatten_append, List.flatten_cons, List.append_assoc]

/-- C3 counterexample: on a concrete eligible document the output is the
input with the image line inserted AND an extra newline after the closing
marker, so it is not byte-for-byte the input plus the single inserted
line. -/
theorem C3_cex :
    (add_image_to_frontmatter (chars "---\ntitle: T\n---\nbody\n")).2 =
      chars "---\ntitle: T\nimage: /assets/favicon/android-chrome-512x512.png\n---\n\nbody\n" ∧
    (add_image_to_frontmatter (chars "---\ntitle: T\n---\nbody\n")).2 ≠
      chars "---\ntitle: T\nimage: /assets/favicon/android-chrome-512x512.png\n---\nbody\n" := by
  decide

theorem C3_witness :
    parseHeader (chars "---\ntitle: W\n---\nbw\n") =
      some ([chars "---\n"] ++ chars "title: W\n" :: [], chars "---\n", chars "bw\n") ∧
    (add_image_to_frontmatter (chars "---\ntitle: W\n---\nbw\n") =
      (true, [chars "---\n"].flatten ++ chars "title: W\n"
        ++ imgLine (pyOr (find_first_image (chars "bw\n")) DEFAULT_IMAGE)
        ++ ([] : List (List Char)).flatten ++ chars "---\n" ++ '\n' :: chars "bw\n") ∧
     chars "---\ntitle: W\n---\nbw\n" =
       [chars "---\n"].flatten ++ chars "title: W\n" ++ ([] : List (List Char)).flatten
         ++ chars "---\n" ++ chars "bw\n") :=
  ⟨by decide,
    C3_rewrite_byte_diff _ [chars "---\n"] (chars "title: W\n") [] (chars "---\n")
      (chars "bw\n") (by decide) (by decide) (by decide) (by decide)⟩

/-- C4 (amended): for an eligible document whose closing marker line ends
with a newline and whose resolved image value contains no newline, the
body recovered after processing is one newline character followed by the
original body — byte-identical except for that single prepended newline
(the extra newline the processor writes after the closing line). -/
theorem C4_body_after_processing (s : List Char) (fm : List (List Char)) (c b : List Char)
    (hp : parseHeader s = some (fm, c, b))
    (hni : fm.any isImageLine = false)
    (hcNl : endsNl c = true)
    (hu : ∀ ch ∈ pyOr (find_first_image b) DEFAULT_IMAGE, ch ≠ '\n') :
    bodyAfterHeader ((add_image_to_frontmatter s).2) = some ('\n' :: b) := by
  unfold bodyAfterHeader
  rw [reparse_exact s fm c b hp hni hcNl hu]

/-- C4 counterexample: processing prepends a newline to the body, so the
body text after processing is not byte-identical to the body before. -/
theorem C4_cex :
    bodyAfterHeader ((add_image_to_frontmatter (chars "---\ntitle: U\n---\nbody\n")).2) ≠
      bodyAfterHeader (chars "---\ntitle: U\n---\nbody\n") := by
  decide

theorem C4_witness :
    parseHeader (chars "---\ntitle: V\n---\nbody\n") =
      some ([chars "---\n", chars "title: V\n"], chars "---\n", chars "body\n") ∧
    endsNl (chars "---\n") = true ∧
    bodyAfterHeader ((add_image_to_frontmatter (chars "---\ntitle: V\n---\nbody\n")).2) =
      some ('\n' :: chars "body\n") :=
  ⟨by decide, by decide,
    C4_body_after_processing _ [chars "---\n", chars "title: V\n"] (chars "---\n")
      (chars "body\n") (by decide) (by decide) (by decide) (by decide)⟩

/-- C5: for a header line sequence whose first `title:`-prefixed line is
`l` (all lines of `fm₁` before it are not title lines), the Header
Rewriter inserts the single line `image: <url>` immediately after `l`,
keeps all other lines in their original relative order, and inserts
nothing else even when `fm₂` contains further `title:`-prefixed lines. -/
theorem C5_insertion_placement (fm₁ : List (List Char)) (l : List Char)
    (fm₂ : List (List Char)) (url : List Char)
    (h₁ : ∀ x ∈ fm₁, isTitleLine x = false) (hl : isTitleLine l = true) :
    insertImage (fm₁ ++ l :: fm₂) url = fm₁ ++ l :: imgLine url :: fm₂ :=
  insertImage_eq_of_title fm₁ l fm₂ url h₁ hl

theorem C5_witness :
    (∀ x ∈ [chars "---\n"], isTitleLine x = false) ∧
    isTitleLine (chars "title: X\n") = true ∧
    insertImage ([chars "---\n"] ++ chars "title: X\n" :: [chars "title: Y\n"]) (chars "u")
      = [chars "---\n"] ++ chars "title: X\n" :: imgLine (chars "u") :: [chars "title: Y\n"] :=
  ⟨by decide, by decide,
    C5_insertion_placement [chars "---\n"] (chars "title: X\n") [chars "title: Y\n"]
      (chars "u") (by decide) (by decide)⟩

/-- C6: whenever the markdown (inline markup) image pattern matches in the
body, the extractor returns that url, even when the html (embedded markup)
pattern also matches — possibly earlier in the text, as in the witness. -/
theorem C6_md_precedence (content u v : List Char)
    (hm : findMd content = some u) (_hh : findHtml content = some v) :
    find_first_image content = some u := by
  unfold find_first_image
  rw [hm]

theorem C6_witness :
    findMd (chars "<img src='a'> x ![y](b)") = some (chars "b") ∧
    findHtml (chars "<img src='a'> x ![y](b)") = some (chars "a") ∧
    find_first_image (chars "<img src='a'> x ![y](b)") = some (chars "b") :=
  ⟨by decide, by decide,
    C6_md_precedence (chars "<img src='a'> x ![y](b)") (chars "b") (chars "a")
      (by decide) (by decide)⟩

/-- C7 (amended): when no inline markup image exists, the extractor
returns exactly the result of the embedded-markup search, which matches
the tag CASE-SENSITIVELY (the source regex has no IGNORECASE flag):
lowercase `<img src="u">` is matched while `<IMG SRC="u">` is not. -/
theorem C7_html_case_sensitive (content : List Char)
    (h : findMd content = none) :
    find_first_image content = findHtml content ∧
    findHtml (chars "<IMG SRC=\"u\">") = none ∧
    findHtml (chars "<img src=\"u\">") = some (chars "u") := by
  refine ⟨?_, by decide, by decide⟩
  unfold find_first_image
  rw [h]

/-- C7 counterexample: the uppercase tag `<IMG SRC="u">` is NOT found by
the extractor, although the claim asserts it is found just like the
lowercase form (which is found). -/
theorem C7_cex :
    find_first_image (chars "<IMG SRC=\"u\">") = none ∧
    find_first_image (chars "<img src=\"u\">") = some (chars "u") := by
  decide

theorem C7_witness :
    findMd (chars "see <img src=\"u\"> here") = none ∧
    find_first_image (chars "see <img src=\"u\"> here") =
      findHtml (chars "see <img src=\"u\"> here") :=
  ⟨by decide, (C7_html_case_sensitive _ (by decide)).1⟩

/-- C8 (amended): the Header Parser rejects a document — and the processor
leaves it untouched, returning the unchanged result — exactly when the
document is empty or its stripped first line does not START WITH `---`
(the source uses `startswith`, not equality with the marker, so a first
line such as `--- x` is accepted); conversely any changed document has a
stripped first line starting with `---`. -/
theorem C8_first_line_gate (s : List Char) :
    (firstLineOk s = false → add_image_to_frontmatter s = (false, s)) ∧
    ((add_image_to_frontmatter s).1 = true → firstLineOk s = true) := by
  have main : firstLineOk s = false → add_image_to_frontmatter s = (false, s) := by
    intro h
    unfold firstLineOk at h
    apply add_false_of_parse_none
    cases hl : pyLines s with
    | nil =>
      unfold parseHeader
      rw [hl]
    | cons first rest =>
      rw [hl] at h
      have h' : startsWithL marker (pyStrip first) = false := h
      rw [parseHeader_of_pyLines hl, if_neg (by simp [h'])]
  refine ⟨main, ?_⟩
  intro h
  by_cases hf : firstLineOk s = true
  · exact hf
  · rw [main (Bool.eq_false_iff.2 hf)] at h
    simp at h

/-- C8 counterexample: a document whose first line strips to `--- x`,
which is not exactly the marker token, is nevertheless accepted and
rewritten by the processor. -/
theorem C8_cex :
    (pyLines (chars "--- x\ntitle: T\n---\nb\n")).head? = some (chars "--- x\n") ∧
    pyStrip (chars "--- x\n") ≠ marker ∧
    (add_image_to_frontmatter (chars "--- x\ntitle: T\n---\nb\n")).1 = true := by
  decide

theorem C8_witness :
    firstLineOk (chars "no front matter\n") = false ∧
    add_image_to_frontmatter (chars "no front matter\n") =
      (false, chars "no front matter\n") :=
  ⟨by decide, (C8_first_line_gate _).1 (by decide)⟩

/-- C9: for an eligible document whose front matter has a `title:` line
and whose body yields no image reference of either kind, the inserted
line's value is the fixed default asset path
`/assets/favicon/android-chrome-512x512.png`. -/
theorem C9_default_fallback (s : List Char) (fm₁ : List (List Char)) (l : List Char)
    (fm₂ : List (List Char)) (c b : List Char)
    (hp : parseHeader s = some (fm₁ ++ l :: fm₂, c, b))
    (hni : (fm₁ ++ l :: fm₂).any isImageLine = false)
    (h₁ : ∀ x ∈ fm₁, isTitleLine x = false) (hl : isTitleLine l = true)
    (hb : find_first_image b = none) :
    add_image_to_frontmatter s =
      (true, fm₁.flatten ++ l ++ imgLine DEFAULT_IMAGE
        ++ fm₂.flatten ++ c ++ '\n' :: b) := by
  have hsh := add_rewrite_shape s fm₁ l fm₂ c b hp hni h₁ hl
  rw [hb] at hsh
  simpa [pyOr] using hsh

theorem C9_witness :
    find_first_image (chars "body\n") = none ∧
    add_image_to_frontmatter (chars "---\ntitle: T\n---\nbody\n") =
      (true, [chars "---\n"].flatten ++ chars "title: T\n" ++ imgLine DEFAULT_IMAGE
        ++ ([] : List (List Char)).flatten ++ chars "---\n" ++ '\n' :: chars "body\n") :=
  ⟨by decide,
    C9_default_fallback _ [chars "---\n"] (chars "title: T\n") [] (chars "---\n")
      (chars "body\n") (by decide) (by decide) (by decide) (by decide) (by decide)⟩

/-- C10: when the first inline markup image has an empty url (`![alt]()`),
the extractor returns the empty string, which the processor's Python `or`
treats as falsy just like "none found", so the fixed default asset path is
inserted rather than an empty `image:` value. -/
theorem C10_empty_md_url (s : List Char) (fm₁ : List (List Char)) (l : List Char)
    (fm₂ : List (List Char)) (c b : List Char)
    (hp : parseHeader s = some (fm₁ ++ l :: fm₂, c, b))
    (hni : (fm₁ ++ l :: fm₂).any isImageLine = false)
    (h₁ : ∀ x ∈ fm₁, isTitleLine x = false) (hl : isTitleLine l = true)
    (hb : find_first_image b = some []) :
    add_image_to_frontmatter s =
      (true, fm₁.flatten ++ l ++ imgLine DEFAULT_IMAGE
        ++ fm₂.flatten ++ c ++ '\n' :: b) := by
  have hsh := add_rewrite_shape s fm₁ l fm₂ c b hp hni h₁ hl
  rw [hb] at hsh
  simpa [pyOr] using hsh

theorem C10_witness :
    find_first_image (chars "pre ![a]() post\n") = some [] ∧
    add_image_to_frontmatter (chars "---\ntitle: E\n---\npre ![a]() post\n") =
      (true, [chars "---\n"].flatten ++ chars "title: E\n" ++ imgLine DEFAULT_IMAGE
        ++ ([] : List (List Char)).flatten ++ chars "---\n"
        ++ '\n' :: chars "pre ![a]() post\n") :=
  ⟨by decide,
    C10_empty_md_url _ [chars "---\n"] (chars "title: E\n") [] (chars "---\n")
      (chars "pre ![a]() post\n") (by decide) (by decide) (by decide) (by decide)
      (by decide)⟩

end AddImage
